import Mathlib

/-!
Verification development for the DataMatrix scanner (`main.py`).

The definitions below are a shallow embedding of the registry/tracker state,
the decode pipeline queues, the ROI detection filter and the decode-worker
cycle of `DataMatrixScanner` in `main.py`.  External collaborators (OpenCV
contour extraction, the `pylibdmtx` symbol decoder, wall-clock time) are
modelled as explicit parameters/oracles; machine floats for timestamps and
contour areas are modelled as exact rationals.
-/

/-- One decoded symbol as returned by the symbol decoder (`pylibdmtx`).
`data` is the payload text after the lossy `bytes.decode("utf-8",
errors="ignore")` step performed in `loop` (the dedup key); `polygon` is the
optional point list (`res.polygon`, empty when absent) and `rect` the bounding
rectangle `res.rect = (x, y, w, h)` in ROI-local coordinates. -/
structure DmtxResult where
  data : String
  polygon : List (Int × Int)
  rect : Int × Int × Int × Int
  deriving DecidableEq

/-- A decode result tagged with its ROI origin offset `(ox, oy)`:
the tuples `(r, (x, y))` appended by `decode_worker`. -/
abbrev TaggedResult := DmtxResult × Int × Int

/-- One entry of `self.scanned_codes` (`loop`, lines 583-587): the payload
text, the moment it was first seen, and its ordinal number.  The source
stores a formatted wall-clock string captured at the same moment; we keep the
tick's timestamp value. -/
structure ScanRecord where
  code : String
  timestamp : ℚ
  number : Nat
  deriving DecidableEq

/-- One value of the `self.tracked` dict: `{"polygon": poly, "last_seen": now}`. -/
structure TrackEntry where
  polygon : List (Int × Int)
  last_seen : ℚ
  deriving DecidableEq

/-- The mutable scanner state of `DataMatrixScanner` relevant to the registry,
tracker, session and decode queues (`__init__`, lines 49-57 and 86-87).
`decode_queue` is the `maxsize=1` frame slot (frames abstracted to an id);
`result_queue` is the unbounded FIFO of published result batches. -/
structure ScanState where
  seen_codes : Finset String
  code_counter : Nat
  scanned_codes : List ScanRecord
  scan_start_time : Option ℚ
  time_for_10_codes : Option ℚ
  tracked : List (String × TrackEntry)
  decode_queue : Option Nat
  result_queue : List (List TaggedResult)
  deriving DecidableEq

/-- The constant `TRACK_TIMEOUT = 0.5` seconds. -/
def TRACK_TIMEOUT : ℚ := 1 / 2

/-- The freshly initialised state (`__init__`): empty seen set, zero counter,
empty scanned list, no session timestamps, empty tracked map, empty queues. -/
def initState : ScanState :=
  { seen_codes := ∅
    code_counter := 0
    scanned_codes := []
    scan_start_time := none
    time_for_10_codes := none
    tracked := []
    decode_queue := none
    result_queue := [] }

/-- Operation `reset_scan` (lines 393-407): clears the seen set, the tracked map, the
counter and both session timestamps, and drains both decode queues.  It does
not touch `scanned_codes`. -/
def reset_scan (s : ScanState) : ScanState :=
  { s with
    seen_codes := ∅
    tracked := []
    code_counter := 0
    scan_start_time := none
    time_for_10_codes := none
    decode_queue := none
    result_queue := [] }

/-- Operation `clear_codes_list` (lines 370-374): `self.scanned_codes.clear()` followed
by `self.reset_scan()`. -/
def clear_codes_list (s : ScanState) : ScanState :=
  reset_scan { s with scanned_codes := [] }

/-- Absolute polygon computation of `loop` (lines 568-575): use the decoder's
polygon translated by the origin offset when it is non-empty, otherwise
synthesise the four corners of the translated bounding rectangle. -/
def absPolygon (r : DmtxResult) (ox oy : Int) : List (Int × Int) :=
  if !r.polygon.isEmpty then
    r.polygon.map fun p => (p.1 + ox, p.2 + oy)
  else
    match r.rect with
    | (rx, ry, rw, rh) =>
      [(rx + ox, ry + oy), (rx + rw + ox, ry + oy),
       (rx + rw + ox, ry + rh + oy), (rx + ox, ry + rh + oy)]

/-- Dict assignment `self.tracked[code] = ...`: it replaces the entry
for `c` if present and appending it otherwise. -/
def updateTracked (m : List (String × TrackEntry)) (c : String) (e : TrackEntry) :
    List (String × TrackEntry) :=
  if m.any fun p => decide (p.1 = c) then
    m.map fun p => if p.1 = c then (c, e) else p
  else
    m ++ [(c, e)]

/-- Expiry pass of `loop` (lines 610-615): delete every tracked entry with
`now - last_seen > TRACK_TIMEOUT`. -/
def expireTracked (m : List (String × TrackEntry)) (now : ℚ) :
    List (String × TrackEntry) :=
  m.filter fun p => !decide (now - p.2.last_seen > TRACK_TIMEOUT)

/-- Python truthiness of `self.scan_start_time` in
`if self.code_counter == 10 and self.scan_start_time:`:
`None` and `0.0` are falsy. -/
def truthyTime : Option ℚ → Bool
  | none => false
  | some t => decide (t ≠ 0)

/-- Processing of one tagged decode result by `loop` (lines 565-607): decode
the payload key, compute the absolute polygon; if the payload is unseen, add
it to the seen set, increment the counter, append a scan record, set the
session start on the first code and the 10-code milestone on the tenth (when
the start timestamp is truthy); in every case refresh the tracked entry. -/
def registryStep (now : ℚ) (s : ScanState) (res : TaggedResult) : ScanState :=
  let code := res.1.data
  let poly := absPolygon res.1 res.2.1 res.2.2
  if code ∈ s.seen_codes then
    { s with tracked := updateTracked s.tracked code ⟨poly, now⟩ }
  else
    let counter := s.code_counter + 1
    { s with
      seen_codes := insert code s.seen_codes
      code_counter := counter
      scanned_codes := s.scanned_codes ++ [⟨code, now, counter⟩]
      scan_start_time := if counter = 1 then some now else s.scan_start_time
      time_for_10_codes :=
        match s.scan_start_time with
        | some t =>
          if counter = 10 ∧ t ≠ 0 then some (now - t) else s.time_for_10_codes
        | none => s.time_for_10_codes
      tracked := updateTracked s.tracked code ⟨poly, now⟩ }

/-- One render tick's registry work (`loop`, lines 565-615): fold
`registryStep` over the polled result batch, then run the expiry pass. -/
def registryBatch (s : ScanState) (now : ℚ) (results : List TaggedResult) :
    ScanState :=
  let s' := results.foldl (registryStep now) s
  { s' with tracked := expireTracked s'.tracked now }

/-- A sequence of render ticks, each with its `now = time.time()` value and
the result batch polled on that tick (empty list when the poll was empty). -/
def runTicks (s : ScanState) : List (ℚ × List TaggedResult) → ScanState
  | [] => s
  | (now, rs) :: rest => runTicks (registryBatch s now rs) rest

/-- Payload texts for which `self.beep()` fires while the batch is processed:
exactly the results whose payload is not yet in the seen set at the moment
they are handled (lines 577-598). -/
def batchBeeps (s : ScanState) (now : ℚ) : List TaggedResult → List String
  | [] => []
  | r :: rest =>
    if r.1.data ∈ s.seen_codes then batchBeeps (registryStep now s r) now rest
    else r.1.data :: batchBeeps (registryStep now s r) now rest

/-- Beeps accumulated over a sequence of render ticks. -/
def ticksBeeps (s : ScanState) : List (ℚ × List TaggedResult) → List String
  | [] => []
  | (now, rs) :: rest => batchBeeps s now rs ++ ticksBeeps (registryBatch s now rs) rest

/-- The observation sequence `(payload text, tick time)` carried by one batch. -/
def obsOfBatch (now : ℚ) (rs : List TaggedResult) : List (String × ℚ) :=
  rs.map fun r => (r.1.data, now)

/-- The observation sequence carried by a sequence of ticks. -/
def obsOfTicks : List (ℚ × List TaggedResult) → List (String × ℚ)
  | [] => []
  | (now, rs) :: rest => obsOfBatch now rs ++ obsOfTicks rest

/-- The first occurrences of each payload in an observation sequence, relative
to an already-seen set: the observations that are new when reached. -/
def newsFrom (seen : Finset String) : List (String × ℚ) → List (String × ℚ)
  | [] => []
  | (c, t) :: rest =>
    if c ∈ seen then newsFrom seen rest
    else (c, t) :: newsFrom (insert c seen) rest

/-- The times of the first occurrences. -/
def newsTimes (seen : Finset String) (obs : List (String × ℚ)) : List ℚ :=
  (newsFrom seen obs).map Prod.snd

/-- Seen set after an observation sequence. -/
def seenAfter (seen : Finset String) : List (String × ℚ) → Finset String
  | [] => seen
  | (c, _) :: rest => seenAfter (insert c seen) rest

/-- The value `time_for_10_codes` holds once the listed first-occurrence times
have been processed from a reset state: the tenth new time minus the first,
recorded only when a tenth new code exists and the start timestamp is truthy
(nonzero). -/
def tenOf (ts : List ℚ) : Option ℚ :=
  match ts.head?, ts[9]? with
  | some t0, some t9 => if t0 = 0 then none else some (t9 - t0)
  | _, _ => none

/-! ### Decode pipeline queues -/

/-- The drain loop `while not self.decode_queue.empty():
self.decode_queue.get_nowait()` over the one-slot queue. -/
def drainSlot {γ : Type} : Option γ → Option γ
  | none => none
  | some _ => none

/-- Operation `put_nowait` on the one-slot queue: errors (raises `queue.Full`) when the
slot is occupied. -/
def putNowait {γ : Type} (q : Option γ) (g : γ) : Except Unit (Option γ) :=
  match q with
  | none => .ok (some g)
  | some _ => .error ()

/-- Frame submission of `loop` (lines 551-557): drain the slot, then
`put_nowait` the fresh frame; a raised queue exception leaves the state as the
`except Empty: pass` handler does. -/
def submitFrame {γ : Type} (q : Option γ) (g : γ) : Option γ :=
  match putNowait (drainSlot q) g with
  | .ok q' => q'
  | .error _ => q

/-- The worker's `self.decode_queue.get()`: observes the pending frame, if
any, and empties the slot. -/
def workerTake {γ : Type} : Option γ → Option (γ × Option γ)
  | none => none
  | some g => some (g, none)

/-- Operation `queue.Queue.put` on the unbounded result queue: FIFO append. -/
def fifoPut {α : Type} (q : List α) (x : α) : List α := q ++ [x]

/-- Operation `get_nowait` on the unbounded FIFO: errors (raises `queue.Empty`) when the
queue is empty, otherwise removes and returns the front element. -/
def fifoGetNowait {α : Type} : List α → Except Unit (α × List α)
  | [] => .error ()
  | x :: rest => .ok (x, rest)

/-- The render loop's poll (lines 560-563): `get_nowait` with
`except Empty: results = []`. -/
def pollResults (q : List (List TaggedResult)) :
    List TaggedResult × List (List TaggedResult) :=
  match fifoGetNowait q with
  | .error _ => ([], q)
  | .ok (rs, q') => (rs, q')

/-! ### ROI detector -/

/-- A contour as seen by `find_rois`: `cv2.contourArea` value (a float that is
always an integer multiple of 1/2, modelled exactly as a rational) and
`cv2.boundingRect` output `(x, y, w, h)`. -/
structure Contour where
  area : ℚ
  rx : Int
  ry : Int
  rw : Nat
  rh : Nat
  deriving DecidableEq

/-- The admission filter of `find_rois` (lines 470-482), one `continue` guard
per branch: reject small areas, small bounding boxes, and bounding boxes wider
or taller than 90% of the frame. -/
def roiAdmit (w h : Nat) (c : Contour) : Bool :=
  if c.area < 2000 then false
  else if c.rw < 40 ∨ c.rh < 40 then false
  else if (c.rw : ℚ) > (w : ℚ) * (9 / 10) ∨ (c.rh : ℚ) > (h : ℚ) * (9 / 10) then false
  else true

/-- `find_rois` (lines 459-484) restricted to the part implemented here: the
Canny/dilate/contour extraction is the CV collaborator, so the function takes
the extracted contour list and keeps the bounding rectangles of the admitted
contours, in discovery order. -/
def find_rois (w h : Nat) : List Contour → List (Int × Int × Nat × Nat)
  | [] => []
  | c :: rest =>
    if roiAdmit w h c then (c.rx, c.ry, c.rw, c.rh) :: find_rois w h rest
    else find_rois w h rest

/-! ### Decode worker cycle -/

/-- An ROI rectangle `(x, y, w, h)` as iterated by `decode_worker`. -/
abbrev ROI := Int × Int × Nat × Nat

/-- The per-ROI decode loop of `decode_worker` (lines 496-501): decode each
ROI crop (the `roiDecode` oracle stands for `pylibdmtx.decode(roi, timeout=5)`)
and tag every result with the ROI's top-left corner. -/
def roiResultsOf (roiDecode : ROI → List DmtxResult) : List ROI → List TaggedResult
  | [] => []
  | r :: rest =>
    ((roiDecode r).map fun d => (d, r.1, r.2.1)) ++ roiResultsOf roiDecode rest

/-- One exception-free decode cycle of `decode_worker` (lines 490-507).
`frame_counter` is the scanner's frame counter, in scope in the worker but
never consulted by it; `fullDecode` stands for
`pylibdmtx.decode(gray, timeout=10)`.  Returns the cycle's results and whether
the whole-frame fallback ran. -/
def decodeCycle (frame_counter : Nat) (rois : List ROI)
    (roiDecode : ROI → List DmtxResult) (fullDecode : List DmtxResult) :
    List TaggedResult × Bool :=
  let results := roiResultsOf roiDecode rois
  if results.length < 2 then
    (results ++ fullDecode.map fun d => (d, 0, 0), true)
  else
    (results, false)

/-- The per-ROI decode loop with fallible decoding: a raised exception aborts
the cycle, discarding the partial result list. -/
def roiResultsOfE (roiDecode : ROI → Except Unit (List DmtxResult)) :
    List ROI → Except Unit (List TaggedResult)
  | [] => .ok []
  | r :: rest => do
    let ds ← roiDecode r
    let tail ← roiResultsOfE roiDecode rest
    pure ((ds.map fun d => (d, r.1, r.2.1)) ++ tail)

/-- One decode cycle of `decode_worker` with fallible collaborators: ROI
detection, per-ROI decode and the whole-frame fallback may each raise. -/
def decodeCycleE (findRois : Except Unit (List ROI))
    (roiDecode : ROI → Except Unit (List DmtxResult))
    (fullDecode : Except Unit (List DmtxResult)) :
    Except Unit (List TaggedResult) := do
  let rois ← findRois
  let results ← roiResultsOfE roiDecode rois
  if results.length < 2 then
    let full ← fullDecode
    pure (results ++ full.map fun d => (d, 0, 0))
  else
    pure results

/-- Publication step at the end of one worker iteration (lines 509-512): an
exception is swallowed (`except Exception: pass`, nothing published); a normal
cycle publishes its batch to the result FIFO only when non-empty
(`if results:`). -/
def workerPublish (rq : List (List TaggedResult))
    (outcome : Except Unit (List TaggedResult)) : List (List TaggedResult) :=
  match outcome with
  | .error _ => rq
  | .ok results => if results.isEmpty then rq else fifoPut rq results

/-- The worker loop over a sequence of consumed frames: each frame's cycle
outcome is published (or swallowed) and the loop continues with the next
frame. -/
def decodeWorkerRun {Frame : Type} (cycle : Frame → Except Unit (List TaggedResult)) :
    List Frame → List (List TaggedResult) → List (List TaggedResult)
  | [], rq => rq
  | f :: rest, rq => decodeWorkerRun cycle rest (workerPublish rq (cycle f))

/-- Sample decode result used to instantiate theorems at concrete inputs. -/
def mkResult (c : String) : TaggedResult :=
  (⟨c, [], (0, 0, 0, 0)⟩, 0, 0)

/-! ### Claim theorems -/

/-- Claim C1: in every decode cycle of `decode_worker`, the whole-frame
fallback decode runs exactly when the number of ROI-based results collected in
that cycle is below two; with 0 or 1 ROI results the cycle appends the
whole-frame results tagged with origin `(0, 0)`, with 2 or more it does not,
and the cycle is completely independent of the frame counter (no periodic
modulo gating). -/
theorem decode_cycle_fallback_iff_few_roi_results
    (fc fc' : Nat) (rois : List ROI) (roiDecode : ROI → List DmtxResult)
    (fullDecode : List DmtxResult) :
    decodeCycle fc rois roiDecode fullDecode = decodeCycle fc' rois roiDecode fullDecode ∧
    (decodeCycle fc rois roiDecode fullDecode).2
      = decide ((roiResultsOf roiDecode rois).length < 2) ∧
    (decodeCycle fc rois roiDecode fullDecode).1
      = roiResultsOf roiDecode rois ++
        (if (roiResultsOf roiDecode rois).length < 2 then
          fullDecode.map fun d => (d, 0, 0)
        else []) := by
  refine ⟨rfl, ?_, ?_⟩ <;> simp only [decodeCycle] <;> split <;>
    simp_all

/-- Claim C3: `reset_scan` is idempotent, fully clears the seen set, the
tracked map, the code counter and both session timestamps, and any payload is
treated as new after a reset: it is absent from the seen set, processing it
beeps for it again and counts it again as the first code. -/
theorem reset_scan_idempotent_and_clears
    (s : ScanState) (now : ℚ) (res : TaggedResult) :
    reset_scan (reset_scan s) = reset_scan s ∧
    (reset_scan s).seen_codes = ∅ ∧
    (reset_scan s).tracked = [] ∧
    (reset_scan s).code_counter = 0 ∧
    (reset_scan s).scan_start_time = none ∧
    (reset_scan s).time_for_10_codes = none ∧
    res.1.data ∉ (reset_scan s).seen_codes ∧
    batchBeeps (reset_scan s) now [res] = [res.1.data] ∧
    (registryStep now (reset_scan s) res).code_counter = 1 := by
  refine ⟨rfl, rfl, rfl, rfl, rfl, rfl, ?_, ?_, ?_⟩
  · simp [reset_scan]
  · simp [batchBeeps, reset_scan]
  · simp [registryStep, reset_scan]

/-- Claim C4: a contour is admitted by `find_rois` exactly when its area is at
least 2000, its bounding width and height are both at least 40, and the
bounding box does not exceed 90% of the frame width or height; `find_rois`
keeps precisely the admitted contours' bounding rectangles; at the boundary,
area 1999 is rejected and area 2000 accepted with otherwise-passing
dimensions, and a box over 90% of frame width or height is rejected. -/
theorem find_rois_admission (w h : Nat) (c : Contour) (cs : List Contour) :
    (roiAdmit w h c = true ↔
      (2000 ≤ c.area ∧ 40 ≤ c.rw ∧ 40 ≤ c.rh ∧
        (c.rw : ℚ) ≤ (w : ℚ) * (9 / 10) ∧ (c.rh : ℚ) ≤ (h : ℚ) * (9 / 10))) ∧
    find_rois w h cs
      = (cs.filter (roiAdmit w h)).map (fun c => (c.rx, c.ry, c.rw, c.rh)) ∧
    roiAdmit 640 480 ⟨1999, 0, 0, 50, 50⟩ = false ∧
    roiAdmit 640 480 ⟨2000, 0, 0, 50, 50⟩ = true ∧
    roiAdmit 640 480 ⟨100000, 0, 0, 577, 50⟩ = false ∧
    roiAdmit 640 480 ⟨100000, 0, 0, 50, 433⟩ = false := by
  refine ⟨?_, ?_, by norm_num [roiAdmit], by norm_num [roiAdmit],
    by norm_num [roiAdmit], by norm_num [roiAdmit]⟩
  · constructor
    · intro hadm
      by_cases h1 : c.area < 2000
      · simp [roiAdmit, h1] at hadm
      · by_cases h2 : c.rw < 40 ∨ c.rh < 40
        · simp [roiAdmit, h1, h2] at hadm
        · by_cases h3 : (c.rw : ℚ) > (w : ℚ) * (9 / 10) ∨ (c.rh : ℚ) > (h : ℚ) * (9 / 10)
          · simp [roiAdmit, h1, h2, h3] at hadm
          · push_neg at h1 h2 h3
            exact ⟨h1, h2.1, h2.2, h3.1, h3.2⟩
    · rintro ⟨ha, hw, hh, hW, hH⟩
      have h1 : ¬c.area < 2000 := not_lt.mpr ha
      have h2 : ¬(c.rw < 40 ∨ c.rh < 40) := by
        push_neg
        exact ⟨hw, hh⟩
      have h3 : ¬((c.rw : ℚ) > (w : ℚ) * (9 / 10) ∨ (c.rh : ℚ) > (h : ℚ) * (9 / 10)) := by
        push_neg
        exact ⟨hW, hH⟩
      simp [roiAdmit, h1, h2, h3]
  · induction cs with
    | nil => rfl
    | cons d ds ih =>
      by_cases hd : roiAdmit w h d = true
      · simp [find_rois, List.filter_cons, hd, ih]
      · simp [find_rois, List.filter_cons, hd, ih]

/-- Claim C5, counterexample: the result queue is an unbounded FIFO, so when
two completed batches are pending, the render loop's poll obtains the OLDER
one, not the newest: with batch `[mkResult "A"]` published before batch
`[mkResult "B"]`, the poll returns the `"A"` batch although the `"B"` batch is
the most recent completed one. -/
theorem poll_returns_oldest_counterexample :
    (pollResults (fifoPut (fifoPut [] [mkResult "A"]) [mkResult "B"])).1
        = [mkResult "A"] ∧
    [mkResult "A"] ≠ [mkResult "B"] := by
  refine ⟨rfl, ?_⟩
  simp [mkResult]

/-- Claim C5 amended: the render loop's poll is non-blocking and returns the
OLDEST pending completed batch (FIFO order), or nothing if none is ready;
newer pending batches stay queued for later polls. -/
theorem poll_returns_oldest_batch (q : List (List TaggedResult)) :
    pollResults q = (q.headD [], q.tail) := by
  cases q <;> rfl

/-- Claim C6: submitting frame `a` and then frame `b` to the one-slot decode
queue before `a` is consumed leaves only `b` in the slot; the worker's next
take observes `b` and the submission never blocks or errors (after the drain,
`put_nowait` always succeeds). -/
theorem submit_newest_wins {γ : Type} (q : Option γ) (a b : γ) :
    submitFrame (submitFrame q a) b = some b ∧
    workerTake (submitFrame (submitFrame q a) b) = some (b, none) ∧
    putNowait (drainSlot (submitFrame q a)) b = .ok (some b) := by
  cases q <;> exact ⟨rfl, rfl, rfl⟩

/-- Claim C10: `reset_scan` leaves the accumulated `scanned_codes` list
unchanged; a payload processed after a reset is appended to the list once
more, so the list can hold duplicate payload entries across resets; only
`clear_codes_list` empties it. -/
theorem reset_preserves_scanned_codes
    (s : ScanState) (now : ℚ) (res : TaggedResult) :
    (reset_scan s).scanned_codes = s.scanned_codes ∧
    ((registryStep now (reset_scan s) res).scanned_codes.map ScanRecord.code).count
        res.1.data
      = (s.scanned_codes.map ScanRecord.code).count res.1.data + 1 ∧
    (clear_codes_list s).scanned_codes = [] := by
  refine ⟨rfl, ?_, rfl⟩
  simp [registryStep, reset_scan]

/-! ### Helper lemmas about the registry transition -/

theorem registryStep_of_mem (now : ℚ) (s : ScanState) (r : TaggedResult)
    (h : r.1.data ∈ s.seen_codes) :
    registryStep now s r
      = { s with tracked := updateTracked s.tracked r.1.data ⟨absPolygon r.1 r.2.1 r.2.2, now⟩ } := by
  simp [registryStep, h]

theorem registryStep_of_new (now : ℚ) (s : ScanState) (r : TaggedResult)
    (h : r.1.data ∉ s.seen_codes) :
    registryStep now s r
      = { s with
          seen_codes := insert r.1.data s.seen_codes
          code_counter := s.code_counter + 1
          scanned_codes := s.scanned_codes ++ [⟨r.1.data, now, s.code_counter + 1⟩]
          scan_start_time :=
            if s.code_counter + 1 = 1 then some now else s.scan_start_time
          time_for_10_codes :=
            match s.scan_start_time with
            | some t =>
              if s.code_counter + 1 = 10 ∧ t ≠ 0 then some (now - t)
              else s.time_for_10_codes
            | none => s.time_for_10_codes
          tracked := updateTracked s.tracked r.1.data ⟨absPolygon r.1 r.2.1 r.2.2, now⟩ } := by
  simp [registryStep, h]

theorem registryStep_seen (now : ℚ) (s : ScanState) (r : TaggedResult) :
    (registryStep now s r).seen_codes = insert r.1.data s.seen_codes := by
  by_cases h : r.1.data ∈ s.seen_codes
  · simp [registryStep_of_mem now s r h, Finset.insert_eq_self.mpr h]
  · simp [registryStep_of_new now s r h]

theorem registryBatch_seen (s : ScanState) (now : ℚ) (rs : List TaggedResult) :
    (registryBatch s now rs).seen_codes
      = (rs.foldl (registryStep now) s).seen_codes := rfl

theorem registryBatch_counter (s : ScanState) (now : ℚ) (rs : List TaggedResult) :
    (registryBatch s now rs).code_counter
      = (rs.foldl (registryStep now) s).code_counter := rfl

theorem registryBatch_scanned (s : ScanState) (now : ℚ) (rs : List TaggedResult) :
    (registryBatch s now rs).scanned_codes
      = (rs.foldl (registryStep now) s).scanned_codes := rfl

theorem registryBatch_start (s : ScanState) (now : ℚ) (rs : List TaggedResult) :
    (registryBatch s now rs).scan_start_time
      = (rs.foldl (registryStep now) s).scan_start_time := rfl

theorem registryBatch_ten (s : ScanState) (now : ℚ) (rs : List TaggedResult) :
    (registryBatch s now rs).time_for_10_codes
      = (rs.foldl (registryStep now) s).time_for_10_codes := rfl

theorem seenAfter_append (o₁ : List (String × ℚ)) :
    ∀ (o₂ : List (String × ℚ)) (seen : Finset String),
      seenAfter seen (o₁ ++ o₂) = seenAfter (seenAfter seen o₁) o₂ := by
  induction o₁ with
  | nil =>
    intro o₂ seen
    rfl
  | cons o rest ih =>
    intro o₂ seen
    cases o with
    | mk c t => simp [seenAfter, ih]

theorem mem_seenAfter (p : String) :
    ∀ (obs : List (String × ℚ)) (seen : Finset String),
      p ∈ seenAfter seen obs ↔ p ∈ seen ∨ p ∈ obs.map Prod.fst := by
  intro obs
  induction obs with
  | nil =>
    intro seen
    simp [seenAfter]
  | cons o rest ih =>
    intro seen
    cases o with
    | mk c t =>
      simp only [seenAfter, ih, Finset.mem_insert, List.map_cons, List.mem_cons]
      tauto

theorem newsFrom_append (o₁ : List (String × ℚ)) :
    ∀ (o₂ : List (String × ℚ)) (seen : Finset String),
      newsFrom seen (o₁ ++ o₂)
        = newsFrom seen o₁ ++ newsFrom (seenAfter seen o₁) o₂ := by
  induction o₁ with
  | nil =>
    intro o₂ seen
    rfl
  | cons o rest ih =>
    intro o₂ seen
    cases o with
    | mk c t =>
      by_cases hc : c ∈ seen
      · simp [newsFrom, seenAfter, hc, ih, Finset.insert_eq_self.mpr hc]
      · simp [newsFrom, seenAfter, hc, ih]

theorem obsOfBatch_cons (now : ℚ) (r : TaggedResult) (rs : List TaggedResult) :
    obsOfBatch now (r :: rs) = (r.1.data, now) :: obsOfBatch now rs := rfl

theorem obsOfBatch_map_fst (now : ℚ) (rs : List TaggedResult) :
    (obsOfBatch now rs).map Prod.fst = rs.map fun r => r.1.data := by
  simp [obsOfBatch]

theorem seenAfter_cons (seen : Finset String) (c : String) (t : ℚ)
    (obs : List (String × ℚ)) :
    seenAfter seen ((c, t) :: obs) = seenAfter (insert c seen) obs := rfl

theorem newsFrom_cons_mem (seen : Finset String) (c : String) (t : ℚ)
    (obs : List (String × ℚ)) (h : c ∈ seen) :
    newsFrom seen ((c, t) :: obs) = newsFrom seen obs := by
  simp [newsFrom, h]

theorem newsFrom_cons_new (seen : Finset String) (c : String) (t : ℚ)
    (obs : List (String × ℚ)) (h : c ∉ seen) :
    newsFrom seen ((c, t) :: obs) = (c, t) :: newsFrom (insert c seen) obs := by
  simp [newsFrom, h]

theorem batchBeeps_cons_mem (now : ℚ) (s : ScanState) (r : TaggedResult)
    (rest : List TaggedResult) (h : r.1.data ∈ s.seen_codes) :
    batchBeeps s now (r :: rest) = batchBeeps (registryStep now s r) now rest := by
  simp [batchBeeps, h]

theorem batchBeeps_cons_new (now : ℚ) (s : ScanState) (r : TaggedResult)
    (rest : List TaggedResult) (h : r.1.data ∉ s.seen_codes) :
    batchBeeps s now (r :: rest)
      = r.1.data :: batchBeeps (registryStep now s r) now rest := by
  simp [batchBeeps, h]

theorem ticksBeeps_cons (s : ScanState) (now : ℚ) (rs : List TaggedResult)
    (rest : List (ℚ × List TaggedResult)) :
    ticksBeeps s ((now, rs) :: rest)
      = batchBeeps s now rs ++ ticksBeeps (registryBatch s now rs) rest := rfl

theorem runTicks_cons (s : ScanState) (now : ℚ) (rs : List TaggedResult)
    (rest : List (ℚ × List TaggedResult)) :
    runTicks s ((now, rs) :: rest) = runTicks (registryBatch s now rs) rest := rfl

theorem obsOfTicks_cons (now : ℚ) (rs : List TaggedResult)
    (rest : List (ℚ × List TaggedResult)) :
    obsOfTicks ((now, rs) :: rest) = obsOfBatch now rs ++ obsOfTicks rest := rfl

theorem foldRegistry_actions (now : ℚ) :
    ∀ (rs : List TaggedResult) (s : ScanState),
      (rs.foldl (registryStep now) s).seen_codes
          = seenAfter s.seen_codes (obsOfBatch now rs) ∧
      (rs.foldl (registryStep now) s).scanned_codes.map ScanRecord.code
          = s.scanned_codes.map ScanRecord.code ++ batchBeeps s now rs ∧
      (rs.foldl (registryStep now) s).code_counter
          = s.code_counter + (batchBeeps s now rs).length := by
  intro rs
  induction rs with
  | nil =>
    intro s
    simp [obsOfBatch, seenAfter, batchBeeps]
  | cons r rest ih =>
    intro s
    by_cases h : r.1.data ∈ s.seen_codes
    · rw [List.foldl_cons, obsOfBatch_cons, seenAfter_cons,
        batchBeeps_cons_mem now s r rest h, registryStep_of_mem now s r h,
        Finset.insert_eq_self.mpr h]
      exact ih _
    · rw [List.foldl_cons, obsOfBatch_cons, seenAfter_cons,
        batchBeeps_cons_new now s r rest h, registryStep_of_new now s r h]
      obtain ⟨ha, hb, hc⟩ := ih { s with
        seen_codes := insert r.1.data s.seen_codes
        code_counter := s.code_counter + 1
        scanned_codes := s.scanned_codes ++ [⟨r.1.data, now, s.code_counter + 1⟩]
        scan_start_time :=
          if s.code_counter + 1 = 1 then some now else s.scan_start_time
        time_for_10_codes :=
          match s.scan_start_time with
          | some t =>
            if s.code_counter + 1 = 10 ∧ t ≠ 0 then some (now - t)
            else s.time_for_10_codes
          | none => s.time_for_10_codes
        tracked := updateTracked s.tracked r.1.data ⟨absPolygon r.1 r.2.1 r.2.2, now⟩ }
      refine ⟨ha, ?_, ?_⟩
      · rw [hb]
        simp
      · rw [hc]
        simp
        omega

theorem batchBeeps_count (now : ℚ) (p : String) :
    ∀ (rs : List TaggedResult) (s : ScanState),
      (batchBeeps s now rs).count p
        = if p ∈ s.seen_codes then 0
          else if p ∈ rs.map (fun r => r.1.data) then 1 else 0 := by
  intro rs
  induction rs with
  | nil =>
    intro s
    by_cases hp : p ∈ s.seen_codes <;> simp [batchBeeps, hp]
  | cons r rest ih =>
    intro s
    have hiff : ∀ hpc : p ≠ r.1.data,
        ((p ∈ r.1.data :: List.map (fun q => q.1.data) rest) ↔
          (p ∈ List.map (fun q => q.1.data) rest)) := by
      intro hpc
      simp [hpc]
    by_cases h : r.1.data ∈ s.seen_codes
    · rw [batchBeeps_cons_mem now s r rest h, ih]
      have hseen : (registryStep now s r).seen_codes = s.seen_codes := by
        rw [registryStep_seen, Finset.insert_eq_self.mpr h]
      rw [hseen, List.map_cons]
      by_cases hp : p ∈ s.seen_codes
      · simp [hp]
      · have hpc : p ≠ r.1.data := fun he => hp (he ▸ h)
        simp only [hiff hpc]
    · rw [batchBeeps_cons_new now s r rest h, List.count_cons, ih,
        registryStep_seen, List.map_cons]
      by_cases hpc : p = r.1.data
      · subst hpc
        simp [h]
      · have hin : (p ∈ insert r.1.data s.seen_codes) ↔ p ∈ s.seen_codes := by
          simp [Finset.mem_insert, hpc]
        have hbeq : (r.1.data == p) = false := by
          simp [Ne.symm hpc]
        rw [hbeq]
        simp only [hin, hiff hpc]
        simp

theorem runTicks_actions :
    ∀ (ticks : List (ℚ × List TaggedResult)) (s : ScanState),
      (runTicks s ticks).seen_codes = seenAfter s.seen_codes (obsOfTicks ticks) ∧
      (runTicks s ticks).scanned_codes.map ScanRecord.code
        = s.scanned_codes.map ScanRecord.code ++ ticksBeeps s ticks ∧
      (runTicks s ticks).code_counter
        = s.code_counter + (ticksBeeps s ticks).length := by
  intro ticks
  induction ticks with
  | nil =>
    intro s
    simp [runTicks, obsOfTicks, seenAfter, ticksBeeps]
  | cons tk rest ih =>
    intro s
    cases tk with
    | mk now rs =>
      obtain ⟨ha, hb, hc⟩ := ih (registryBatch s now rs)
      obtain ⟨fa, fb, fc⟩ := foldRegistry_actions now rs s
      refine ⟨?_, ?_, ?_⟩
      · rw [runTicks_cons, ha, registryBatch_seen, fa, obsOfTicks_cons,
          seenAfter_append]
      · rw [runTicks_cons, hb, registryBatch_scanned, fb, ticksBeeps_cons,
          List.append_assoc]
      · rw [runTicks_cons, hc, registryBatch_counter, fc, ticksBeeps_cons,
          List.length_append]
        omega

theorem ticksBeeps_count (p : String) :
    ∀ (ticks : List (ℚ × List TaggedResult)) (s : ScanState),
      (ticksBeeps s ticks).count p
        = if p ∈ s.seen_codes then 0
          else if p ∈ (obsOfTicks ticks).map Prod.fst then 1 else 0 := by
  intro ticks
  induction ticks with
  | nil =>
    intro s
    by_cases hp : p ∈ s.seen_codes <;> simp [ticksBeeps, obsOfTicks, hp]
  | cons tk rest ih =>
    intro s
    cases tk with
    | mk now rs =>
      rw [ticksBeeps_cons, List.count_append, batchBeeps_count now p rs s,
        ih (registryBatch s now rs), registryBatch_seen,
        (foldRegistry_actions now rs s).1, obsOfTicks_cons, List.map_append]
      by_cases hp : p ∈ s.seen_codes
      · have hp' : p ∈ seenAfter s.seen_codes (obsOfBatch now rs) :=
          (mem_seenAfter p (obsOfBatch now rs) s.seen_codes).mpr (Or.inl hp)
        simp [hp, hp']
      · by_cases hq : p ∈ rs.map fun r => r.1.data
        · have hq' : p ∈ (obsOfBatch now rs).map Prod.fst := by
            rw [obsOfBatch_map_fst]
            exact hq
          have hp' : p ∈ seenAfter s.seen_codes (obsOfBatch now rs) :=
            (mem_seenAfter p (obsOfBatch now rs) s.seen_codes).mpr (Or.inr hq')
          simp [hp, hq, hp', List.mem_append, hq']
        · have hq' : p ∉ (obsOfBatch now rs).map Prod.fst := by
            rw [obsOfBatch_map_fst]
            exact hq
          have hp' : p ∉ seenAfter s.seen_codes (obsOfBatch now rs) := by
            rw [mem_seenAfter p (obsOfBatch now rs) s.seen_codes]
            rintro (hc | hc)
            · exact hp hc
            · exact hq' hc
          have happ : (p ∈ (obsOfBatch now rs).map Prod.fst
                ++ (obsOfTicks rest).map Prod.fst) ↔
              (p ∈ (obsOfTicks rest).map Prod.fst) := by
            simp [List.mem_append, hq']
          simp only [if_neg hp, if_neg hq, if_neg hp', happ]
          simp

theorem tenOf_nil : tenOf [] = none := rfl

theorem foldRegistry_session (now : ℚ) :
    ∀ (rs : List TaggedResult) (s : ScanState) (hts : List ℚ),
      s.code_counter = hts.length →
      s.scan_start_time = hts.head? →
      s.time_for_10_codes = tenOf hts →
      (rs.foldl (registryStep now) s).code_counter
          = (hts ++ newsTimes s.seen_codes (obsOfBatch now rs)).length ∧
      (rs.foldl (registryStep now) s).scan_start_time
          = (hts ++ newsTimes s.seen_codes (obsOfBatch now rs)).head? ∧
      (rs.foldl (registryStep now) s).time_for_10_codes
          = tenOf (hts ++ newsTimes s.seen_codes (obsOfBatch now rs)) := by
  intro rs
  induction rs with
  | nil =>
    intro s hts h1 h2 h3
    simp [obsOfBatch, newsTimes, newsFrom, h1, h2, h3]
  | cons r rest ih =>
    intro s hts h1 h2 h3
    by_cases h : r.1.data ∈ s.seen_codes
    · have hnews : newsTimes s.seen_codes (obsOfBatch now (r :: rest))
          = newsTimes s.seen_codes (obsOfBatch now rest) := by
        rw [newsTimes, obsOfBatch_cons, newsFrom_cons_mem _ _ _ _ h]
        rfl
      rw [List.foldl_cons, hnews, registryStep_of_mem now s r h]
      exact ih _ hts h1 h2 h3
    · have hnews : newsTimes s.seen_codes (obsOfBatch now (r :: rest))
          = now :: newsTimes (insert r.1.data s.seen_codes) (obsOfBatch now rest) := by
        rw [newsTimes, obsOfBatch_cons, newsFrom_cons_new _ _ _ _ h]
        rfl
      rw [List.foldl_cons, hnews, registryStep_of_new now s r h,
        show hts ++ now :: newsTimes (insert r.1.data s.seen_codes) (obsOfBatch now rest)
            = (hts ++ [now]) ++ newsTimes (insert r.1.data s.seen_codes) (obsOfBatch now rest) by
          simp]
      refine ih _ (hts ++ [now]) ?_ ?_ ?_
      · simp [h1]
      · cases hts with
        | nil =>
          simp only [h1]
          simp
        | cons a tl =>
          simp only [h1]
          simp only [h2]
          simp
      · cases hts with
        | nil =>
          have h9 : ([now] : List ℚ)[9]? = none := List.getElem?_eq_none (by simp)
          simp only [h2, h3]
          simp [tenOf, h9]
        | cons a tl =>
          have hlen : s.code_counter + 1 = tl.length + 2 := by
            rw [h1]
            simp
          simp only [h2, h3, hlen, List.head?_cons]
          by_cases h8 : tl.length = 8
          · have h9 : ((a :: tl) ++ [now])[9]? = some now := by
              rw [List.getElem?_append_right (by simp [h8])]
              simp [h8]
            by_cases ha : a = 0
            · have h9' : (a :: tl)[9]? = none :=
                List.getElem?_eq_none (by simp [h8])
              simp [tenOf, ha, h8, h9, h9']
              cases htl : tl[8]? <;> simp [htl]
            · simp [tenOf, ha, h8, h9]
          · have hne : ¬(tl.length + 2 = 10 ∧ a ≠ 0) := by
              intro hco
              exact h8 (by omega)
            rw [if_neg hne]
            rcases Nat.lt_or_ge tl.length 8 with hlt | hge
            · have hA : (a :: tl)[9]? = none := by
                apply List.getElem?_eq_none
                simp
                omega
              have hB : ((a :: tl) ++ [now])[9]? = none := by
                rw [List.getElem?_append_right (by simp; omega)]
                apply List.getElem?_eq_none
                simp
                omega
              simp [tenOf, hA, hB]
              have hC : (tl ++ [now])[8]? = none := by
                rw [List.getElem?_append_right (by omega)]
                apply List.getElem?_eq_none
                simp
                omega
              simp [hC]
            · have hge9 : 9 < (a :: tl).length := by
                simp
                omega
              have hB : ((a :: tl) ++ [now])[9]? = (a :: tl)[9]? := by
                rw [List.getElem?_append]
                rw [if_pos hge9]
              simp [tenOf, hB]
              have hC : (tl ++ [now])[8]? = tl[8]? := by
                rw [List.getElem?_append]
                rw [if_pos (by omega)]
              rw [hC]

theorem runTicks_session :
    ∀ (ticks : List (ℚ × List TaggedResult)) (s : ScanState) (hts : List ℚ),
      s.code_counter = hts.length →
      s.scan_start_time = hts.head? →
      s.time_for_10_codes = tenOf hts →
      (runTicks s ticks).code_counter
          = (hts ++ newsTimes s.seen_codes (obsOfTicks ticks)).length ∧
      (runTicks s ticks).scan_start_time
          = (hts ++ newsTimes s.seen_codes (obsOfTicks ticks)).head? ∧
      (runTicks s ticks).time_for_10_codes
          = tenOf (hts ++ newsTimes s.seen_codes (obsOfTicks ticks)) := by
  intro ticks
  induction ticks with
  | nil =>
    intro s hts h1 h2 h3
    simp [runTicks, obsOfTicks, newsTimes, newsFrom, h1, h2, h3]
  | cons tk rest ih =>
    intro s hts h1 h2 h3
    cases tk with
    | mk now rs =>
      rw [runTicks_cons, obsOfTicks_cons]
      have hsplit : newsTimes s.seen_codes (obsOfBatch now rs ++ obsOfTicks rest)
          = newsTimes s.seen_codes (obsOfBatch now rs)
            ++ newsTimes (seenAfter s.seen_codes (obsOfBatch now rs))
                (obsOfTicks rest) := by
        rw [newsTimes, newsFrom_append, List.map_append]
        rfl
      rw [hsplit]
      obtain ⟨f1, f2, f3⟩ := foldRegistry_session now rs s hts h1 h2 h3
      have hseen : (registryBatch s now rs).seen_codes
          = seenAfter s.seen_codes (obsOfBatch now rs) := by
        rw [registryBatch_seen, (foldRegistry_actions now rs s).1]
      obtain ⟨g1, g2, g3⟩ := ih (registryBatch s now rs)
          (hts ++ newsTimes s.seen_codes (obsOfBatch now rs))
          (by rw [registryBatch_counter]; exact f1)
          (by rw [registryBatch_start]; exact f2)
          (by rw [registryBatch_ten]; exact f3)
      rw [hseen] at g1 g2 g3
      refine ⟨?_, ?_, ?_⟩
      · rw [g1, List.append_assoc]
      · rw [g2, List.append_assoc]
      · rw [g3, List.append_assoc]

/-- Claim C2: starting from any reset state, each distinct decoded payload
text triggers the new-code actions exactly once over the whole run, no matter
how many times it is re-observed in later results (before or after its
tracked entry expires, the expiry pass running every tick): the beep fires
exactly once for an observed payload and never for an unobserved one, exactly
one scan record for it is appended, and the ordinal counter advances exactly
once per notified payload. -/
theorem each_payload_counted_once (s : ScanState)
    (ticks : List (ℚ × List TaggedResult)) (p : String) :
    (ticksBeeps (reset_scan s) ticks).count p
      = (if p ∈ (obsOfTicks ticks).map Prod.fst then 1 else 0) ∧
    ((runTicks (reset_scan s) ticks).scanned_codes.map ScanRecord.code).count p
      = (s.scanned_codes.map ScanRecord.code).count p
        + (if p ∈ (obsOfTicks ticks).map Prod.fst then 1 else 0) ∧
    (runTicks (reset_scan s) ticks).code_counter
      = (ticksBeeps (reset_scan s) ticks).length := by
  have hcount : (ticksBeeps (reset_scan s) ticks).count p
      = if p ∈ (obsOfTicks ticks).map Prod.fst then 1 else 0 := by
    rw [ticksBeeps_count p ticks (reset_scan s)]
    have hempty : p ∉ (reset_scan s).seen_codes := by
      simp [reset_scan]
    rw [if_neg hempty]
  obtain ⟨-, hb, hc⟩ := runTicks_actions ticks (reset_scan s)
  refine ⟨hcount, ?_, ?_⟩
  · rw [hb, List.count_append, hcount]
    rfl
  · rw [hc]
    show 0 + (ticksBeeps (reset_scan s) ticks).length
      = (ticksBeeps (reset_scan s) ticks).length
    omega

/-- Claim C7: run from the freshly initialised state, for any tick sequence
whose distinct-payload first-occurrence times are t0, ..., t9 (ten distinct
payloads, arbitrarily interleaved with repeat observations), the session
start timestamp is set to t0, the time of the first distinct payload, and the
10-code milestone is recorded with value t9 - t0; while fewer than ten
distinct payloads have occurred the milestone is still unset, so it is
recorded exactly once, on the tenth distinct payload.  Repeats affect
neither field.  The side condition `t0 ≠ 0` reflects that the source guards
the milestone with the Python truthiness of the start timestamp, which only
differs from a plain `is not None` check at the unreachable wall-clock
value 0.0. -/
theorem milestone_on_tenth_distinct
    (ticks : List (ℚ × List TaggedResult)) (ts : List ℚ) (t0 t9 : ℚ)
    (hts : newsTimes ∅ (obsOfTicks ticks) = ts)
    (hlen : ts.length = 10)
    (h0 : ts.head? = some t0)
    (h9 : ts.getLast? = some t9)
    (hnz : t0 ≠ 0) :
    (runTicks initState ticks).scan_start_time = some t0 ∧
    (runTicks initState ticks).time_for_10_codes = some (t9 - t0) ∧
    ∀ pre suf, ticks = pre ++ suf →
      (newsTimes ∅ (obsOfTicks pre)).length < 10 →
      (runTicks initState pre).time_for_10_codes = none := by
  have hs : initState.seen_codes = ∅ := rfl
  obtain ⟨-, g2, g3⟩ := runTicks_session ticks initState [] rfl rfl rfl
  rw [List.nil_append, hs, hts] at g2 g3
  have h9' : ts[9]? = some t9 := by
    rw [List.getLast?_eq_getElem?, hlen] at h9
    simpa using h9
  have hten : tenOf ts = some (t9 - t0) := by
    simp only [tenOf, h0, h9']
    simp [hnz]
  refine ⟨by rw [g2, h0], by rw [g3, hten], ?_⟩
  intro pre suf heq hlt
  obtain ⟨-, -, p3⟩ := runTicks_session pre initState [] rfl rfl rfl
  rw [List.nil_append, hs] at p3
  rw [p3]
  have hnone : (newsTimes ∅ (obsOfTicks pre))[9]? = none :=
    List.getElem?_eq_none (by omega)
  cases hh : (newsTimes ∅ (obsOfTicks pre)).head? <;> simp [tenOf, hh, hnone]

/-- Claim C9: the ordinal counter always equals the cardinality of the seen
set: it holds in the freshly initialised state and is preserved by
`reset_scan` and by every tick's registry processing (result batch fold plus
expiry pass). -/
theorem counter_eq_card_seen :
    initState.code_counter = initState.seen_codes.card ∧
    (∀ s : ScanState, s.code_counter = s.seen_codes.card →
      (reset_scan s).code_counter = (reset_scan s).seen_codes.card) ∧
    (∀ (s : ScanState) (now : ℚ) (rs : List TaggedResult),
      s.code_counter = s.seen_codes.card →
      (registryBatch s now rs).code_counter
        = (registryBatch s now rs).seen_codes.card) := by
  have hstep : ∀ (now : ℚ) (rs : List TaggedResult) (s : ScanState),
      s.code_counter = s.seen_codes.card →
      (rs.foldl (registryStep now) s).code_counter
        = (rs.foldl (registryStep now) s).seen_codes.card := by
    intro now rs
    induction rs with
    | nil =>
      intro s hinv
      exact hinv
    | cons r rest ih =>
      intro s hinv
      rw [List.foldl_cons]
      apply ih
      by_cases h : r.1.data ∈ s.seen_codes
      · rw [registryStep_of_mem now s r h]
        exact hinv
      · rw [registryStep_of_new now s r h]
        show s.code_counter + 1 = (insert r.1.data s.seen_codes).card
        rw [Finset.card_insert_of_not_mem h, hinv]
  refine ⟨rfl, fun s _ => rfl, fun s now rs hinv => ?_⟩
  rw [registryBatch_counter, registryBatch_seen]
  exact hstep now rs s hinv

theorem roiResultsOfE_error (rd : ROI → Except Unit (List DmtxResult)) :
    ∀ (rois : List ROI) (r : ROI), r ∈ rois → rd r = .error () →
      roiResultsOfE rd rois = .error () := by
  intro rois
  induction rois with
  | nil =>
    intro r hr herr
    exact absurd hr (List.not_mem_nil r)
  | cons x rest ih =>
    intro r hr herr
    rcases List.mem_cons.mp hr with he | hm
    · subst he
      simp only [roiResultsOfE, herr]
      rfl
    · cases hx : rd x with
      | error e =>
        cases e
        simp only [roiResultsOfE, hx]
        rfl
      | ok ds =>
        simp only [roiResultsOfE, hx, ih r hm herr]
        rfl

theorem decodeCycleE_error_findRois
    (rd : ROI → Except Unit (List DmtxResult))
    (fd : Except Unit (List DmtxResult)) :
    decodeCycleE (.error ()) rd fd = .error () := rfl

/-- Claim C8: an exception raised anywhere inside a decode cycle (during ROI
detection, per-ROI decoding or the whole-frame fallback) makes the cycle's
outcome an error; the worker's `except Exception: pass` swallows it, so the
failed cycle publishes no result batch and the worker processes the remaining
submitted frames exactly as if the failing frame had produced nothing;
`decodeWorkerRun` is total, so no exception escapes the loop. -/
theorem failed_cycle_publishes_nothing {Frame : Type}
    (fr : Frame → Except Unit (List ROI))
    (rd : Frame → ROI → Except Unit (List DmtxResult))
    (fd : Frame → Except Unit (List DmtxResult))
    (f : Frame) (rest : List Frame) (rq : List (List TaggedResult))
    (hfail : decodeCycleE (fr f) (rd f) (fd f) = .error ()) :
    workerPublish rq (decodeCycleE (fr f) (rd f) (fd f)) = rq ∧
    decodeWorkerRun (fun g => decodeCycleE (fr g) (rd g) (fd g)) (f :: rest) rq
      = decodeWorkerRun (fun g => decodeCycleE (fr g) (rd g) (fd g)) rest rq := by
  have hpub : workerPublish rq (decodeCycleE (fr f) (rd f) (fd f)) = rq := by
    rw [hfail]
    rfl
  refine ⟨hpub, ?_⟩
  show decodeWorkerRun (fun g => decodeCycleE (fr g) (rd g) (fd g)) rest
      (workerPublish rq (decodeCycleE (fr f) (rd f) (fd f))) = _
  rw [hpub]

/-- Witness for the C8 theorem: a cycle whose ROI detection raises publishes
nothing, and the worker run over that single frame ends with an unchanged
(empty) result queue. -/
theorem failed_cycle_publishes_nothing_witness :
    decodeCycleE (Except.error ()) (fun _ => Except.ok ([] : List DmtxResult))
        (Except.ok ([] : List DmtxResult)) = Except.error () ∧
    decodeWorkerRun
        (fun _ : Nat => decodeCycleE (Except.error ())
          (fun _ => Except.ok ([] : List DmtxResult))
          (Except.ok ([] : List DmtxResult))) [0] []
      = [] := by
  refine ⟨rfl, ?_⟩
  have h := @failed_cycle_publishes_nothing Nat
      (fun _ => Except.error ()) (fun _ _ => Except.ok [])
      (fun _ => Except.ok []) 0 [] [] rfl
  exact h.2.trans rfl

/-- Witness for the C9 theorem: the invariant transported across a concrete
batch from the initial state, and across a reset. -/
theorem counter_eq_card_seen_witness :
    (registryBatch initState 1 [mkResult "A"]).code_counter
      = (registryBatch initState 1 [mkResult "A"]).seen_codes.card ∧
    (reset_scan initState).code_counter
      = (reset_scan initState).seen_codes.card :=
  ⟨counter_eq_card_seen.2.2 initState 1 [mkResult "A"] rfl,
    counter_eq_card_seen.2.1 initState rfl⟩

/-- Concrete tick trace for the C7 witness: ten distinct payloads first seen
at times 1, 1, 2, 3, 3, 3, 4, 4, 5, 6, interleaved with repeat
observations. -/
def witnessTicks : List (ℚ × List TaggedResult) :=
  [(1, [mkResult "c0", mkResult "c0", mkResult "c1"]),
   (2, [mkResult "c2", mkResult "c1"]),
   (3, [mkResult "c3", mkResult "c4", mkResult "c5"]),
   (4, [mkResult "c6", mkResult "c7"]),
   (5, [mkResult "c8", mkResult "c0"]),
   (6, [mkResult "c9"])]

/-- Witness for the C7 theorem: on the concrete trace the session start is
the first distinct payload's time 1; the milestone is the tenth distinct
payload's time 6 minus 1. -/
theorem milestone_on_tenth_distinct_witness :
    newsTimes ∅ (obsOfTicks witnessTicks) = [1, 1, 2, 3, 3, 3, 4, 4, 5, 6] ∧
    (runTicks initState witnessTicks).scan_start_time = some 1 ∧
    (runTicks initState witnessTicks).time_for_10_codes = some (6 - 1) := by
  have h := milestone_on_tenth_distinct witnessTicks
      [1, 1, 2, 3, 3, 3, 4, 4, 5, 6] 1 6
      (by decide) (by decide) (by decide) (by decide) (by decide)
  exact ⟨by decide, h.1, h.2.1⟩
